import Mathlib

/-!
Verification of the incremental transcription stabilization engine of
`local-ai-clients` (clients/voice-test-gui plus the offline harness).

The engine is shallowly embedded: C strings become `List Char`, machine
integers become `Nat` (the quantities involved are sample counts, byte
offsets and millisecond values that stay far below any overflow bound in
the modelled paths), and the C loops become recursive Lean functions whose
loop conditions are transcribed verbatim.  The interactive client's
reconciliation (the `WM_TRANSCRIBE_DONE` stability block of
`clients/voice-test-gui/src/main.c`) is embedded in namespace `VoiceGui`,
and the offline harness's independent re-implementation (`test_sim`) in
namespace `VoiceSim`; each is transcribed from its own source block.
-/

/-- Models libc `tolower` in the C locale on a byte read through
`(unsigned char)`: ASCII `A`..`Z` (codes 65..90) map to `a`..`z`
(code + 32), everything else is unchanged. -/
def cToLower (c : Char) : Char :=
  if 65 ≤ c.toNat ∧ c.toNat ≤ 90 then Char.ofNat (c.toNat + 32) else c

/-- One per-token timestamp of an `AsrResult` (shared/asr_client.c):
`byte_offset` into the result text and `audio_ms` into the audio window. -/
structure Token where
  byteOffset : Nat
  audioMs : Nat
deriving DecidableEq, Repr

namespace VoiceGui

/-- The character normalization applied inside the fuzzy walk of
`WM_TRANSCRIBE_DONE` (main.c:4257-4260): `tolower`, then `-` is replaced
by a space. -/
def foldChar (c : Char) : Char :=
  let l := cToLower c
  if l = '-' then ' ' else l

/-- The inner separator-skipping loops of the fuzzy walk
(main.c:4264-4265): advance `i` while it is in range and the raw character
at `i` is a space or a hyphen. -/
def skipSeps (s : List Char) (len : Nat) (i : Nat) : Nat :=
  if h : i < len ∧ (s.getD i ' ' = ' ' ∨ s.getD i ' ' = '-') then
    skipSeps s len (i + 1)
  else i
termination_by len - i
decreasing_by omega

theorem skipSeps_ge (s : List Char) (len i : Nat) : i ≤ skipSeps s len i := by
  induction i using skipSeps.induct s len with
  | case1 i h ih => rw [skipSeps, dif_pos h]; omega
  | case2 i h => rw [skipSeps, dif_neg h]

/-- The fuzzy prefix walk of `WM_TRANSCRIBE_DONE` (main.c:4255-4271),
also reused for the resynchronization walk (main.c:4297-4314): compare
`result` and `prev` position by position under `foldChar`, treating a
run of spaces/hyphens on both sides as one synchronization point, and
return the last agreement offset in `result` coordinates. -/
def fuzzyAux (result prev : List Char) (rLen pLen : Nat)
    (ia ib common : Nat) : Nat :=
  if h : ia < rLen ∧ ib < pLen then
    let ca := foldChar (result.getD ia ' ')
    let cb := foldChar (prev.getD ib ' ')
    if ca = ' ' ∧ cb = ' ' then
      fuzzyAux result prev rLen pLen
        (skipSeps result rLen (ia + 1)) (skipSeps prev pLen (ib + 1)) ia
    else if ca = cb then
      fuzzyAux result prev rLen pLen (ia + 1) (ib + 1) (ia + 1)
    else common
  else common
termination_by rLen - ia
decreasing_by
  · have := skipSeps_ge result rLen (ia + 1); omega
  · omega

/-- The sentence-boundary search of the resynchronization step
(main.c:4276-4293): the first index `i ≥ from` with a strong terminator
(`.`, `!`, `?`, `:`) at `i` immediately followed by a space, returned as
`i + 2`. -/
def sbScan (s : List Char) (len i : Nat) : Option Nat :=
  if h : i + 1 < len then
    if (s.getD i ' ' = '.' ∨ s.getD i ' ' = '!'
        ∨ s.getD i ' ' = '?' ∨ s.getD i ' ' = ':')
        ∧ s.getD (i + 1) ' ' = ' ' then some (i + 2)
    else sbScan s len (i + 1)
  else none
termination_by len - i
decreasing_by omega

/-- The complete aligner of `WM_TRANSCRIBE_DONE` (main.c:4252-4319):
fuzzy prefix walk, then, on a genuine divergence, sentence-boundary
resynchronization whose re-aligned length is adopted when it extends at
least 20 characters past the terminator found in `result`. -/
def computeCommon (result prev : List Char) (rLen pLen : Nat) : Nat :=
  let common := fuzzyAux result prev rLen pLen 0 0 0
  if common < rLen ∧ common < pLen then
    match sbScan result rLen common with
    | none => common
    | some sbA =>
      match sbScan prev pLen common with
      | none => common
      | some sbB =>
        if sbA < rLen ∧ sbB < pLen then
          let sync := fuzzyAux result prev rLen pLen sbA sbB sbA
          if 20 ≤ sync - sbA ∧ common < sync then sync else common
        else common
  else common

/-- The cut-point derived from a boundary character at index `i`
(main.c:4357-4359): one past the character, plus one more if that
position holds a space inside the text. -/
def boundaryAt (result : List Char) (rLen i : Nat) : Nat :=
  let b := i + 1
  if b < rLen ∧ result.getD b ' ' = ' ' then b + 1 else b

/-- The backward commit-boundary scan of `WM_TRANSCRIBE_DONE`
(main.c:4348-4371): walk `i` from `common - 1` down to `stableLen + 1`;
a strong boundary (`.`, `!`, `?`, `:`) breaks immediately with its cut
point, a weak boundary (`,`, `;`) is remembered once as a fallback when
it leaves at least 30 confirmed characters before it and 15 aligned
characters after it; a boundary character followed by a non-space inside
the aligned region is skipped. The fallback resolution
(main.c:4372-4374) is folded into the base case. -/
def commitScan (result : List Char) (rLen common stableLen : Nat) :
    Nat → Option Nat → Nat
  | 0, bestComma =>
    match bestComma with
    | some b => if stableLen < b then b else stableLen
    | none => stableLen
  | i + 1, bestComma =>
    if stableLen < i + 1 then
      let c := result.getD (i + 1) ' '
      let strong := c = '.' ∨ c = '!' ∨ c = '?' ∨ c = ':'
      let weak := c = ',' ∨ c = ';'
      if strong ∨ weak then
        if i + 2 < common ∧ ¬ result.getD (i + 2) ' ' = ' ' then
          commitScan result rLen common stableLen i bestComma
        else
          if strong then boundaryAt result rLen (i + 1)
          else
            let boundary := boundaryAt result rLen (i + 1)
            let bc :=
              if bestComma = none ∧ 30 ≤ boundary - stableLen
                  ∧ 15 ≤ common - boundary then
                some boundary
              else bestComma
            commitScan result rLen common stableLen i bc
      else commitScan result rLen common stableLen i bestComma
    else
      match bestComma with
      | some b => if stableLen < b then b else stableLen
      | none => stableLen

/-- The commit selector (main.c:4348-4374): run the backward scan from
`common - 1` with no weak candidate remembered yet. -/
def selectCommit (result : List Char) (rLen common stableLen : Nat) : Nat :=
  commitScan result rLen common stableLen (common - 1) none

/-- The timestamp loop of the window advancer (main.c:4405-4411): walk
the token list in order, remembering `audio_ms` of every token whose
`byte_offset` is below the cut point, and stop at the first token at or
past it. -/
def lastMsLoop (ts : List Token) (newStable lastMs : Nat) : Nat :=
  match ts with
  | [] => lastMs
  | t :: rest =>
    if t.byteOffset < newStable then lastMsLoop rest newStable t.audioMs
    else lastMs

/-- The window advancer (main.c:4402-4424): with tokens present, convert
the remembered millisecond value to samples at 16000 Hz; without tokens,
fall back to the proportional estimate
`windowSamples * newStable / rLen`. -/
def advanceAmount (ts : List Token) (newStable rLen windowSamples : Nat) :
    Nat :=
  if 0 < ts.length then lastMsLoop ts newStable 0 * 16000 / 1000
  else if 0 < rLen ∧ 0 < windowSamples then
    windowSamples * newStable / rLen
  else 0

/-- The trailing-space trim `while (len > 0 && buf[len-1] == ' ') len--;`
applied to commit fragments (main.c:4391) and final tails
(main.c:4234). -/
def rstripSpaces (l : List Char) : List Char :=
  (l.reverse.dropWhile (fun c => c = ' ')).reverse

/-- `handle_transcribe_result` (main.c:3465-3494) restricted to its
committed-output update: append the fragment to `g_finalized_text`,
inserting one separating space when the previous output does not end in
one, clamped to the 8192-byte buffer (8191 content bytes). -/
def handleTranscribeResult (finalized text : List Char) : List Char :=
  if 0 < text.length then
    let f :=
      if 0 < finalized.length ∧ finalized.getLast? ≠ some ' '
          ∧ finalized.length < 8191 then
        finalized ++ [' ']
      else finalized
    f ++ text.take (8191 - f.length)
  else finalized

/-- The session state mutated by the stability block: the retained tail
buffer `g_prev_result` with its separately tracked length
`g_prev_result_len`, `g_stable_len`, the divergence-guard flag
`g_common0_unconfirmed`, the audio ledger offsets, and the prompt bias
`g_asr_prompt`. -/
structure State where
  prev : List Char
  prevLen : Nat
  stableLen : Nat
  common0Unconfirmed : Bool
  committedSamples : Nat
  windowSamples : Nat
  lastTranscribeSamples : Nat
  prompt : List Char
deriving DecidableEq, Repr

/-- The outputs of one completed non-final pass: the successor state, the
committed fragment handed to `handle_transcribe_result` (if any), and the
intermediate quantities `common` and `new_stable` of the stability
block. -/
structure StepOut where
  state : State
  fragment : Option (List Char)
  common : Nat
  newStable : Nat
  didCommit : Bool
deriving DecidableEq, Repr

/-- One completed non-final pass through the stability block of
`WM_TRANSCRIBE_DONE` (main.c:4250-4477): alignment, commit selection,
fragment emission, window advance with its clamp, retained-tail update,
and the divergence guard.  An empty result skips the block entirely
(main.c:4250). -/
def step (st : State) (result : List Char) (ts : List Token) : StepOut :=
  let rLen := result.length
  if 0 < rLen then
    let common := computeCommon result st.prev rLen st.prevLen
    let newStable := selectCommit result rLen common st.stableLen
    if st.stableLen < newStable then
      let slen0 := min (newStable - st.stableLen) 8191
      let sentence := rstripSpaces ((result.drop st.stableLen).take slen0)
      let fragment := if 0 < sentence.length then some sentence else none
      let prompt' :=
        if 0 < sentence.length then sentence.take 4095 else st.prompt
      let advance := advanceAmount ts newStable rLen st.windowSamples
      let committed' :=
        min (st.committedSamples + advance) st.lastTranscribeSamples
      let tailLen := rLen - newStable
      let prev' :=
        if 0 < tailLen ∧ tailLen < 16384 then result.drop newStable else []
      let prevLen' := if 0 < tailLen ∧ tailLen < 16384 then tailLen else 0
      { state :=
          { prev := prev', prevLen := prevLen', stableLen := 0,
            common0Unconfirmed := st.common0Unconfirmed,
            committedSamples := committed',
            windowSamples := st.windowSamples,
            lastTranscribeSamples := st.lastTranscribeSamples,
            prompt := prompt' },
        fragment := fragment, common := common, newStable := newStable,
        didCommit := true }
    else
      let fullDiverge := common = 0 ∧ 0 < st.prevLen ∧ st.stableLen = 0
      if fullDiverge ∧ st.common0Unconfirmed = false then
        { state := { st with common0Unconfirmed := true },
          fragment := none, common := common, newStable := newStable,
          didCommit := false }
      else
        let guard' := if 0 < common then false else st.common0Unconfirmed
        let prev' := if rLen < 16384 then result else result.take 16383
        { state :=
            { st with
                prev := prev'
                prevLen := rLen
                common0Unconfirmed := guard' },
          fragment := none, common := common, newStable := newStable,
          didCommit := false }
  else
    { state := st, fragment := none, common := 0,
      newStable := st.stableLen, didCommit := false }

/-- The actions `asr_kick_retranscribe` can take (main.c:3388-3438): do
nothing, promote the retained tail as a synthetic final pass, or send a
window of `nSamples` samples to the backend. -/
inductive KickAction where
  | noRequest
  | promote (text : List Char)
  | request (nSamples : Nat)
deriving DecidableEq, Repr

/-- `asr_kick_retranscribe` (main.c:3388-3438) with no pass in flight:
fewer than `RETRANSCRIBE_MIN_SAMPLES` (= 16000) uncommitted samples mean
no backend request — on a final kick a non-empty retained tail is instead
promoted verbatim as a synthetic final result; otherwise the uncommitted
window is sent. -/
def asrKickRetranscribe (total committed : Nat) (prev : List Char)
    (prevLen : Nat) (isFinal : Bool) : KickAction :=
  let nSamples := total - committed
  if nSamples < 16000 then
    if isFinal = false then .noRequest
    else if 0 < prevLen then .promote prev
    else .noRequest
  else .request nSamples

/-- The final-pass commit of `WM_TRANSCRIBE_DONE` (main.c:4229-4248):
everything past `g_stable_len` is committed unconditionally, with
trailing spaces trimmed and the fragment clamped to the 8192-byte commit
buffer. -/
def finalCommitFragment (result : List Char) (stableLen : Nat) :
    Option (List Char) :=
  let rLen := result.length
  if 0 < rLen then
    if stableLen < rLen then
      let tail := rstripSpaces (result.drop stableLen)
      if 0 < tail.length then some (tail.take 8191) else none
    else if 0 < rLen ∧ stableLen = 0 then some result
    else none
  else none

end VoiceGui

namespace VoiceSim

/-- The character normalization of the harness's fuzzy walk
(main.c:5603-5606): `tolower`, then `-` is replaced by a space. -/
def foldChar (c : Char) : Char :=
  let l := cToLower c
  if l = '-' then ' ' else l

/-- The inner separator-skipping loops of the harness's fuzzy walk
(main.c:5610-5611). -/
def skipSeps (s : List Char) (len : Nat) (i : Nat) : Nat :=
  if h : i < len ∧ (s.getD i ' ' = ' ' ∨ s.getD i ' ' = '-') then
    skipSeps s len (i + 1)
  else i
termination_by len - i
decreasing_by omega

theorem skipSeps_start_le (s : List Char) (len i : Nat) : i ≤ skipSeps s len i := by
  induction i using skipSeps.induct s len with
  | case1 i h ih => rw [skipSeps, dif_pos h]; omega
  | case2 i h => rw [skipSeps, dif_neg h]

/-- The harness's fuzzy prefix walk (main.c:5601-5617), reused for its
resynchronization walk (main.c:5643-5660). -/
def fuzzyAux (result prev : List Char) (rLen pLen : Nat)
    (ia ib common : Nat) : Nat :=
  if h : ia < rLen ∧ ib < pLen then
    let ca := foldChar (result.getD ia ' ')
    let cb := foldChar (prev.getD ib ' ')
    if ca = ' ' ∧ cb = ' ' then
      fuzzyAux result prev rLen pLen
        (skipSeps result rLen (ia + 1)) (skipSeps prev pLen (ib + 1)) ia
    else if ca = cb then
      fuzzyAux result prev rLen pLen (ia + 1) (ib + 1) (ia + 1)
    else common
  else common
termination_by rLen - ia
decreasing_by
  · have := skipSeps_start_le result rLen (ia + 1); omega
  · omega

/-- The harness's sentence-boundary search (main.c:5622-5639). -/
def sbScan (s : List Char) (len i : Nat) : Option Nat :=
  if h : i + 1 < len then
    if (s.getD i ' ' = '.' ∨ s.getD i ' ' = '!'
        ∨ s.getD i ' ' = '?' ∨ s.getD i ' ' = ':')
        ∧ s.getD (i + 1) ' ' = ' ' then some (i + 2)
    else sbScan s len (i + 1)
  else none
termination_by len - i
decreasing_by omega

/-- The harness's complete aligner (main.c:5598-5665): prefix walk plus
sentence-boundary resynchronization with the 20-character adoption
threshold. -/
def computeCommon (result prev : List Char) (rLen pLen : Nat) : Nat :=
  let common := fuzzyAux result prev rLen pLen 0 0 0
  if common < rLen ∧ common < pLen then
    match sbScan result rLen common with
    | none => common
    | some sbA =>
      match sbScan prev pLen common with
      | none => common
      | some sbB =>
        if sbA < rLen ∧ sbB < pLen then
          let sync := fuzzyAux result prev rLen pLen sbA sbB sbA
          if 20 ≤ sync - sbA ∧ common < sync then sync else common
        else common
  else common

/-- The harness's cut point for a boundary character at `i`
(main.c:5678-5680). -/
def boundaryAt (result : List Char) (rLen i : Nat) : Nat :=
  let b := i + 1
  if b < rLen ∧ result.getD b ' ' = ' ' then b + 1 else b

/-- The harness's backward commit-boundary scan (main.c:5669-5692) with
the fallback resolution (main.c:5693-5695) folded into the base case. -/
def commitScan (result : List Char) (rLen common stableLen : Nat) :
    Nat → Option Nat → Nat
  | 0, bestComma =>
    match bestComma with
    | some b => if stableLen < b then b else stableLen
    | none => stableLen
  | i + 1, bestComma =>
    if stableLen < i + 1 then
      let c := result.getD (i + 1) ' '
      let strong := c = '.' ∨ c = '!' ∨ c = '?' ∨ c = ':'
      let weak := c = ',' ∨ c = ';'
      if strong ∨ weak then
        if i + 2 < common ∧ ¬ result.getD (i + 2) ' ' = ' ' then
          commitScan result rLen common stableLen i bestComma
        else
          if strong then boundaryAt result rLen (i + 1)
          else
            let boundary := boundaryAt result rLen (i + 1)
            let bc :=
              if bestComma = none ∧ 30 ≤ boundary - stableLen
                  ∧ 15 ≤ common - boundary then
                some boundary
              else bestComma
            commitScan result rLen common stableLen i bc
      else commitScan result rLen common stableLen i bestComma
    else
      match bestComma with
      | some b => if stableLen < b then b else stableLen
      | none => stableLen

/-- The harness's commit selector (main.c:5669-5695). -/
def selectCommit (result : List Char) (rLen common stableLen : Nat) : Nat :=
  commitScan result rLen common stableLen (common - 1) none

/-- The harness's timestamp loop (main.c:5718-5724). -/
def lastMsLoop (ts : List Token) (newStable lastMs : Nat) : Nat :=
  match ts with
  | [] => lastMs
  | t :: rest =>
    if t.byteOffset < newStable then lastMsLoop rest newStable t.audioMs
    else lastMs

/-- The harness's window advancer (main.c:5715-5729) at its
`SAMPLE_RATE` of 16000. -/
def advanceAmount (ts : List Token) (newStable rLen windowSamples : Nat) :
    Nat :=
  if 0 < ts.length then lastMsLoop ts newStable 0 * 16000 / 1000
  else if 0 < rLen ∧ 0 < windowSamples then
    windowSamples * newStable / rLen
  else 0

/-- The harness's trailing-space trim (main.c:5704). -/
def rstripSpaces (l : List Char) : List Char :=
  (l.reverse.dropWhile (fun c => c = ' ')).reverse

/-- The harness's per-session state (main.c:5505-5513). -/
structure State where
  prev : List Char
  prevLen : Nat
  stableLen : Nat
  common0Unconfirmed : Bool
  committedSamples : Nat
  windowSamples : Nat
  lastTranscribeSamples : Nat
  prompt : List Char
deriving DecidableEq, Repr

/-- The outputs of one completed non-final pass of the harness. -/
structure StepOut where
  state : State
  fragment : Option (List Char)
  common : Nat
  newStable : Nat
  didCommit : Bool
deriving DecidableEq, Repr

/-- One completed non-final pass of the harness loop
(main.c:5589-5781): the empty-result skip, alignment, commit selection,
fragment emission, window advance with its clamp, retained-tail update,
and the divergence guard. -/
def step (st : State) (result : List Char) (ts : List Token) : StepOut :=
  let rLen := result.length
  if 0 < rLen then
    let common := computeCommon result st.prev rLen st.prevLen
    let newStable := selectCommit result rLen common st.stableLen
    if st.stableLen < newStable then
      let slen0 := min (newStable - st.stableLen) 8191
      let sentence := rstripSpaces ((result.drop st.stableLen).take slen0)
      let fragment := if 0 < sentence.length then some sentence else none
      let prompt' :=
        if 0 < sentence.length then sentence.take 8191 else st.prompt
      let advance := advanceAmount ts newStable rLen st.windowSamples
      let committed' :=
        min (st.committedSamples + advance) st.lastTranscribeSamples
      let tailLen := rLen - newStable
      let prev' :=
        if 0 < tailLen ∧ tailLen < 16384 then result.drop newStable else []
      let prevLen' := if 0 < tailLen ∧ tailLen < 16384 then tailLen else 0
      { state :=
          { prev := prev', prevLen := prevLen', stableLen := 0,
            common0Unconfirmed := st.common0Unconfirmed,
            committedSamples := committed',
            windowSamples := st.windowSamples,
            lastTranscribeSamples := st.lastTranscribeSamples,
            prompt := prompt' },
        fragment := fragment, common := common, newStable := newStable,
        didCommit := true }
    else
      let fullDiverge := common = 0 ∧ 0 < st.prevLen ∧ st.stableLen = 0
      if fullDiverge ∧ st.common0Unconfirmed = false then
        { state := { st with common0Unconfirmed := true },
          fragment := none, common := common, newStable := newStable,
          didCommit := false }
      else
        let guard' := if 0 < common then false else st.common0Unconfirmed
        let prev' := if rLen < 16384 then result else result.take 16383
        { state :=
            { st with
                prev := prev'
                prevLen := rLen
                common0Unconfirmed := guard' },
          fragment := none, common := common, newStable := newStable,
          didCommit := false }
  else
    { state := st, fragment := none, common := 0,
      newStable := st.stableLen, didCommit := false }

end VoiceSim

/-! ## Claim-side reference definitions -/

/-- The window-advance rule as claim C3 words it: the greatest `audioMs`
among tokens whose `byteOffset` is strictly below the cut point. -/
def greatestMsBelow (ts : List Token) (cut : Nat) : Nat :=
  ((ts.filter (fun t => t.byteOffset < cut)).map Token.audioMs).foldr max 0

/-- The quantity the code's timestamp loop actually computes: the
`audioMs` of the last token of the initial run of tokens whose
`byteOffset` is strictly below the cut point (`0` when that run is
empty). -/
def lastMsBelow (ts : List Token) (cut : Nat) : Nat :=
  (((ts.takeWhile (fun t => t.byteOffset < cut)).map Token.audioMs).getLast?).getD 0

/-- A strong (sentence-ending) boundary character of the commit scan. -/
def strongChar (c : Char) : Prop :=
  c = '.' ∨ c = '!' ∨ c = '?' ∨ c = ':'

instance : DecidablePred strongChar := fun c => by
  unfold strongChar
  infer_instance

/-- A weak (clause-ending) boundary character of the commit scan. -/
def weakChar (c : Char) : Prop := c = ',' ∨ c = ';'

instance : DecidablePred weakChar := fun c => by
  unfold weakChar
  infer_instance

/-- A position the backward scan accepts as a strong boundary: a strong
character that is followed by a space, or sits at (or past) the end of
the aligned region (`common ≤ i + 1`) — the code's actual condition,
which claim C2's "followed by a space or end-of-text" is amended to. -/
def strongQual (result : List Char) (common i : Nat) : Prop :=
  strongChar (result.getD i ' ')
  ∧ (common ≤ i + 1 ∨ result.getD (i + 1) ' ' = ' ')

instance (result : List Char) (common : Nat) :
    DecidablePred (strongQual result common) := fun i => by
  unfold strongQual
  infer_instance

/-- A position the backward scan accepts as a weak fallback candidate:
a weak character, not skipped, whose cut point leaves at least 30
confirmed characters before it and 15 aligned characters after it. -/
def weakQual (result : List Char) (rLen common stableLen i : Nat) : Prop :=
  weakChar (result.getD i ' ')
  ∧ (common ≤ i + 1 ∨ result.getD (i + 1) ' ' = ' ')
  ∧ 30 ≤ VoiceGui.boundaryAt result rLen i - stableLen
  ∧ 15 ≤ common - VoiceGui.boundaryAt result rLen i

instance (result : List Char) (rLen common stableLen : Nat) :
    DecidablePred (weakQual result rLen common stableLen) := fun i => by
  unfold weakQual
  infer_instance

/-- A strong boundary as claim C2 words it: the strong character must be
immediately followed by a space or by the end of the text. -/
def claimStrongAt (result : List Char) (rLen i : Nat) : Prop :=
  strongChar (result.getD i ' ')
  ∧ (result.getD (i + 1) ' ' = ' ' ∨ i + 1 = rLen)

instance (result : List Char) (rLen : Nat) :
    DecidablePred (claimStrongAt result rLen) := fun i => by
  unfold claimStrongAt
  infer_instance

instance decidableExistsIocAnd (lo hi : Nat) (P : Nat → Prop)
    [DecidablePred P] : Decidable (∃ j, lo < j ∧ j ≤ hi ∧ P j) :=
  decidable_of_iff (∃ j ∈ Finset.Ioc lo hi, P j) (by
    simp [Finset.mem_Ioc, and_assoc])

/-! ## Helper lemmas -/

theorem getLast?_getD_cons (l : List Nat) :
    ∀ a d : Nat, ((a :: l).getLast?).getD d = (l.getLast?).getD a := by
  induction l with
  | nil => intro a d; rfl
  | cons b l ih =>
    intro a d
    rw [List.getLast?_cons_cons, ih b d, ih b a]

theorem lastMsLoop_eq_getLast (ts : List Token) (cut m : Nat) :
    VoiceGui.lastMsLoop ts cut m =
      (((ts.takeWhile (fun t => t.byteOffset < cut)).map Token.audioMs).getLast?).getD m := by
  induction ts generalizing m with
  | nil => rfl
  | cons t rest ih =>
    by_cases h : t.byteOffset < cut
    · rw [VoiceGui.lastMsLoop, if_pos h, ih, List.takeWhile_cons_of_pos (by simpa using h)]
      simp [getLast?_getD_cons]
    · rw [VoiceGui.lastMsLoop, if_neg h, List.takeWhile_cons_of_neg (by simpa using h)]
      rfl

theorem handleTranscribeResult_append (old t : List Char) :
    ∃ s, VoiceGui.handleTranscribeResult old t = old ++ s := by
  unfold VoiceGui.handleTranscribeResult
  by_cases ht : 0 < t.length
  · rw [if_pos ht]
    by_cases hsp : 0 < old.length ∧ old.getLast? ≠ some ' ' ∧ old.length < 8191
    · rw [if_pos hsp]
      exact ⟨' ' :: t.take (8191 - (old ++ [' ']).length), by simp⟩
    · rw [if_neg hsp]
      exact ⟨t.take (8191 - old.length), rfl⟩
  · rw [if_neg ht]
    exact ⟨[], by simp⟩

/-! ## Claim theorems -/

/-- C1: the committed output is append-only.  A single call of
`handle_transcribe_result` turns the committed text `old` into `old`
followed by nothing, or by the (buffer-clamped) fragment, or by a single
separating space and then the fragment; consequently over any sequence of
commits the previously committed text is only ever extended, never
shortened, edited or reordered. -/
theorem c1_committed_text_append_only :
    (∀ old t : List Char, ∃ s,
      VoiceGui.handleTranscribeResult old t = old ++ s
      ∧ (s = [] ∨ s = t.take (8191 - old.length)
         ∨ s = ' ' :: t.take (8190 - old.length)))
    ∧ ∀ (old : List Char) (frags : List (List Char)), ∃ s,
      List.foldl VoiceGui.handleTranscribeResult old frags = old ++ s := by
  constructor
  · intro old t
    unfold VoiceGui.handleTranscribeResult
    by_cases ht : 0 < t.length
    · rw [if_pos ht]
      by_cases hsp : 0 < old.length ∧ old.getLast? ≠ some ' ' ∧ old.length < 8191
      · rw [if_pos hsp]
        refine ⟨' ' :: t.take (8190 - old.length), ?_, Or.inr (Or.inr rfl)⟩
        show (old ++ [' ']) ++ List.take (8191 - (old ++ [' ']).length) t
          = old ++ ' ' :: List.take (8190 - old.length) t
        have hl : (old ++ [' ']).length = old.length + 1 := by simp
        rw [hl]
        have h2 : 8191 - (old.length + 1) = 8190 - old.length := by omega
        rw [h2]; simp
      · rw [if_neg hsp]
        exact ⟨t.take (8191 - old.length), rfl, Or.inr (Or.inl rfl)⟩
    · rw [if_neg ht]
      exact ⟨[], by simp, Or.inl rfl⟩
  · intro old frags
    induction frags generalizing old with
    | nil => exact ⟨[], by simp⟩
    | cons t ts ih =>
      obtain ⟨s₀, h₀⟩ := handleTranscribeResult_append old t
      obtain ⟨s₁, h₁⟩ := ih (old ++ s₀)
      exact ⟨s₀ ++ s₁, by simp [h₀, h₁]⟩

/-- C3 counterexample: with tokens `[(0,100ms), (1,50ms)]` (non-monotonic
`audioMs`) and cut point 2, the code advances by the last qualifying
token's 50 ms (800 samples), not by the greatest qualifying `audioMs` of
100 ms (1600 samples) that the claim prescribes. -/
theorem c3_counterexample :
    VoiceGui.advanceAmount [⟨0, 100⟩, ⟨1, 50⟩] 2 21 16000 = 800
    ∧ greatestMsBelow [⟨0, 100⟩, ⟨1, 50⟩] 2 * 16000 / 1000 = 1600
    ∧ (800 : Nat) ≠ 1600 := by
  refine ⟨?_, by decide, by decide⟩
  decide

/-- C3 amended: when the pass carries a non-empty token list the Window
Advancer advances by the `audioMs` of the *last* token (in list order) of
the initial run of tokens with `byteOffset` below the cut point — equal to
the greatest such `audioMs` only when `audioMs` is non-decreasing over
that run — converted to samples at 16000 Hz; when the token list is empty
it advances by the proportional estimate
`windowSamples * cutPoint / resultLen`. -/
theorem c3_advance_amended (ts : List Token) (cut rLen ws : Nat) :
    VoiceGui.advanceAmount ts cut rLen ws =
      if 0 < ts.length then lastMsBelow ts cut * 16000 / 1000
      else if 0 < rLen ∧ 0 < ws then ws * cut / rLen
      else 0 := by
  unfold VoiceGui.advanceAmount lastMsBelow
  rw [lastMsLoop_eq_getLast]

/-- C4: whatever the token list (empty, reverse-sorted `audioMs`, ...),
the clamp at main.c:4425-4427 keeps `committedSamples` at or below the
total captured when the pass was kicked, so one pass advances it by at
most the window size sent for that pass. -/
theorem c4_committed_samples_clamped (st : VoiceGui.State)
    (result : List Char) (ts : List Token)
    (h1 : st.committedSamples ≤ st.lastTranscribeSamples)
    (h2 : st.windowSamples = st.lastTranscribeSamples - st.committedSamples) :
    (VoiceGui.step st result ts).state.committedSamples
      ≤ st.lastTranscribeSamples
    ∧ (VoiceGui.step st result ts).state.committedSamples
        - st.committedSamples ≤ st.windowSamples := by
  have key : (VoiceGui.step st result ts).state.committedSamples
        = st.committedSamples
      ∨ ∃ a, (VoiceGui.step st result ts).state.committedSamples
        = min (st.committedSamples + a) st.lastTranscribeSamples := by
    unfold VoiceGui.step
    dsimp only
    split
    · split
      · right; exact ⟨_, rfl⟩
      · split
        · left; rfl
        · left; rfl
    · left; rfl
  rcases key with h | ⟨a, h⟩ <;> rw [h]
  · exact ⟨h1, by omega⟩
  · have hm := Nat.min_le_right (st.committedSamples + a)
      st.lastTranscribeSamples
    exact ⟨hm, by omega⟩

/-- C10 counterexample: a 16384-byte pass text on the non-commit save
path (main.c:4467-4474) is truncated to the 16383 content bytes of
`g_prev_result`, yet `g_prev_result_len` is set to the untruncated 16384,
breaking the claimed invariant `g_prev_result_len == strlen(g_prev_result)`. -/
theorem step_fresh_save (st : VoiceGui.State) (result : List Char)
    (ts : List Token) (hp : st.prevLen = 0)
    (hres : 0 < result.length) :
    (VoiceGui.step st result ts).state.prevLen = result.length
    ∧ (VoiceGui.step st result ts).state.prev
        = (if result.length < 16384 then result
           else result.take 16383) := by
  have hfz : VoiceGui.fuzzyAux result st.prev result.length st.prevLen 0 0 0
      = 0 := by
    rw [VoiceGui.fuzzyAux, dif_neg (by omega)]
  have hc : VoiceGui.computeCommon result st.prev result.length st.prevLen
      = 0 := by
    rw [VoiceGui.computeCommon, hfz]
    dsimp only
    exact if_neg (by omega)
  have hsel : VoiceGui.selectCommit result result.length 0 st.stableLen
      = st.stableLen := by
    rw [VoiceGui.selectCommit]
    rfl
  unfold VoiceGui.step
  dsimp only
  rw [if_pos hres, hc, hsel, if_neg (by omega : ¬ st.stableLen < st.stableLen),
    if_neg (by rw [hp]; omega :
      ¬ ((0 = 0 ∧ 0 < st.prevLen ∧ st.stableLen = 0)
        ∧ st.common0Unconfirmed = false))]
  exact ⟨rfl, rfl⟩

/-- C10 counterexample: a 16384-byte pass text on the non-commit save
path (main.c:4467-4474) is truncated to the 16383 content bytes of
`g_prev_result`, yet `g_prev_result_len` is set to the untruncated 16384,
breaking the claimed invariant `g_prev_result_len == strlen(g_prev_result)`. -/
theorem c10_counterexample :
    (VoiceGui.step ⟨[], 0, 0, false, 0, 0, 0, []⟩
        (List.replicate 16384 'a') []).state.prevLen = 16384
    ∧ ¬ ((VoiceGui.step ⟨[], 0, 0, false, 0, 0, 0, []⟩
          (List.replicate 16384 'a') []).state.prevLen
        = (VoiceGui.step ⟨[], 0, 0, false, 0, 0, 0, []⟩
            (List.replicate 16384 'a') []).state.prev.length) := by
  have hlen : (List.replicate 16384 'a').length = 16384 :=
    List.length_replicate 16384 'a'
  obtain ⟨h1, h2⟩ := step_fresh_save ⟨[], 0, 0, false, 0, 0, 0, []⟩
    (List.replicate 16384 'a') [] rfl (by omega)
  rw [hlen] at h1
  refine ⟨h1, ?_⟩
  rw [h1, h2, if_neg (by omega), List.length_take, hlen]
  omega

/-- C10 amended: the invariant `g_prev_result_len == strlen(g_prev_result)`
is preserved by every completed pass whose text is shorter than the
16384-byte retained-tail buffer, and by every committing pass regardless
of text length; only the non-commit save path of a text of 16384 bytes or
more breaks it. -/
theorem c10_prev_len_invariant_amended (st : VoiceGui.State)
    (result : List Char) (ts : List Token)
    (hinv : st.prevLen = st.prev.length) :
    (result.length < 16384 →
      (VoiceGui.step st result ts).state.prevLen
        = (VoiceGui.step st result ts).state.prev.length)
    ∧ (st.stableLen < VoiceGui.selectCommit result result.length
        (VoiceGui.computeCommon result st.prev result.length st.prevLen)
        st.stableLen →
      (VoiceGui.step st result ts).state.prevLen
        = (VoiceGui.step st result ts).state.prev.length) := by
  constructor
  · intro hlen
    unfold VoiceGui.step
    dsimp only
    split
    · split
      · split
        · simp
        · simp
      · split
        · simpa using hinv
        · simp [if_pos hlen]
    · simpa using hinv
  · intro hcommit
    have hr : 0 < result.length := by
      by_contra hr0
      have h0 : result.length = 0 := by omega
      have hc0 : VoiceGui.computeCommon result st.prev result.length
          st.prevLen = 0 := by
        rw [VoiceGui.computeCommon, h0]
        have : VoiceGui.fuzzyAux result st.prev 0 st.prevLen 0 0 0 = 0 := by
          rw [VoiceGui.fuzzyAux]; norm_num
        rw [this]; norm_num
      rw [VoiceGui.selectCommit, hc0, h0] at hcommit
      have he : VoiceGui.commitScan result 0 0 st.stableLen (0 - 1) none
          = st.stableLen := rfl
      rw [he] at hcommit
      omega
    unfold VoiceGui.step
    dsimp only
    rw [if_pos hr, if_pos hcommit]
    dsimp only
    by_cases ht : 0 < result.length - VoiceGui.selectCommit result
          result.length (VoiceGui.computeCommon result st.prev
            result.length st.prevLen) st.stableLen
        ∧ result.length - VoiceGui.selectCommit result result.length
            (VoiceGui.computeCommon result st.prev result.length st.prevLen)
            st.stableLen < 16384
    · rw [if_pos ht, if_pos ht, List.length_drop]
    · rw [if_neg ht, if_neg ht]
      rfl

theorem c4_committed_samples_witness :
    100 ≤ 300 ∧ (200 : Nat) = 300 - 100
    ∧ ((VoiceGui.step ⟨['h', 'i'], 2, 0, false, 100, 200, 300, []⟩
          ['h', 'i'] [⟨0, 500⟩, ⟨1, 100⟩]).state.committedSamples ≤ 300
      ∧ (VoiceGui.step ⟨['h', 'i'], 2, 0, false, 100, 200, 300, []⟩
          ['h', 'i'] [⟨0, 500⟩, ⟨1, 100⟩]).state.committedSamples - 100
          ≤ 200) :=
  ⟨by decide, by decide,
    c4_committed_samples_clamped ⟨['h', 'i'], 2, 0, false, 100, 200, 300, []⟩
      ['h', 'i'] [⟨0, 500⟩, ⟨1, 100⟩] (by decide) (by decide)⟩

theorem c10_prev_len_witness :
    (⟨['h', 'i'], 2, 0, false, 0, 0, 0, []⟩ : VoiceGui.State).prevLen
      = (⟨['h', 'i'], 2, 0, false, 0, 0, 0, []⟩ : VoiceGui.State).prev.length
    ∧ (((['o', 'k'] : List Char).length < 16384 →
        (VoiceGui.step ⟨['h', 'i'], 2, 0, false, 0, 0, 0, []⟩
            ['o', 'k'] []).state.prevLen
          = (VoiceGui.step ⟨['h', 'i'], 2, 0, false, 0, 0, 0, []⟩
              ['o', 'k'] []).state.prev.length)
      ∧ ((⟨['h', 'i'], 2, 0, false, 0, 0, 0, []⟩ : VoiceGui.State).stableLen
          < VoiceGui.selectCommit ['o', 'k'] (['o', 'k'] : List Char).length
            (VoiceGui.computeCommon ['o', 'k']
              (⟨['h', 'i'], 2, 0, false, 0, 0, 0, []⟩ : VoiceGui.State).prev
              (['o', 'k'] : List Char).length
              (⟨['h', 'i'], 2, 0, false, 0, 0, 0, []⟩ :
                VoiceGui.State).prevLen)
            (⟨['h', 'i'], 2, 0, false, 0, 0, 0, []⟩ :
              VoiceGui.State).stableLen →
        (VoiceGui.step ⟨['h', 'i'], 2, 0, false, 0, 0, 0, []⟩
            ['o', 'k'] []).state.prevLen
          = (VoiceGui.step ⟨['h', 'i'], 2, 0, false, 0, 0, 0, []⟩
              ['o', 'k'] []).state.prev.length)) :=
  ⟨by decide,
    c10_prev_len_invariant_amended ⟨['h', 'i'], 2, 0, false, 0, 0, 0, []⟩
      ['o', 'k'] [] (by decide)⟩

/-- C8 counterexample: finalize with a 15000-sample uncommitted window
(below `RETRANSCRIBE_MIN_SAMPLES`) promotes the retained tail `"ab "`
without a backend call, but the final commit path trims its trailing
space: the emitted final fragment is `"ab"`, not the retained tail
verbatim. -/
theorem c8_counterexample :
    VoiceGui.asrKickRetranscribe 16000 1000 ['a', 'b', ' '] 3 true
      = .promote ['a', 'b', ' ']
    ∧ VoiceGui.finalCommitFragment ['a', 'b', ' '] 0 = some ['a', 'b']
    ∧ (['a', 'b'] : List Char) ≠ ['a', 'b', ' '] := by
  refine ⟨by decide, ?_, by decide⟩
  decide

/-- C8 amended: when finalize is requested with fewer uncommitted samples
than `RETRANSCRIBE_MIN_SAMPLES` (16000, one second), no backend request
is made — a non-empty retained tail is promoted and committed with its
trailing spaces trimmed (clamped to the 8191-byte commit buffer), an
empty one ends the session silently; and a backend request, whenever one
is made, always carries at least 16000 samples. -/
theorem c8_short_finalize_amended (total committed prevLen : Nat)
    (prev : List Char)
    (hshort : total - committed < 16000) (hne : 0 < prevLen) :
    VoiceGui.asrKickRetranscribe total committed prev prevLen true
      = .promote prev
    ∧ (∀ t2 c2 pl2 f2 n, ∀ p2 : List Char,
        VoiceGui.asrKickRetranscribe t2 c2 p2 pl2 f2 = .request n →
        16000 ≤ n)
    ∧ VoiceGui.finalCommitFragment prev 0 =
        (if 0 < (VoiceGui.rstripSpaces prev).length
         then some ((VoiceGui.rstripSpaces prev).take 8191) else none) := by
  refine ⟨?_, ?_, ?_⟩
  · unfold VoiceGui.asrKickRetranscribe
    rw [if_pos hshort]
    rw [if_neg (by decide : ¬ (true = false)), if_pos hne]
  · intro t2 c2 pl2 f2 n p2 h
    unfold VoiceGui.asrKickRetranscribe at h
    by_cases hs : t2 - c2 < 16000
    · rw [if_pos hs] at h
      by_cases hf : f2 = false
      · rw [if_pos hf] at h
        exact absurd h (by simp)
      · rw [if_neg hf] at h
        by_cases hp : 0 < pl2
        · rw [if_pos hp] at h
          exact absurd h (by simp)
        · rw [if_neg hp] at h
          exact absurd h (by simp)
    · rw [if_neg hs] at h
      have : n = t2 - c2 := by
        injection h with h'
        omega
      omega
  · unfold VoiceGui.finalCommitFragment
    by_cases hp : 0 < prev.length
    · rw [if_pos hp, if_pos hp]
      simp
    · rw [if_neg hp]
      have : prev = [] := by
        cases prev
        · rfl
        · simp at hp
      rw [this]
      rfl

theorem c8_short_finalize_witness :
    (16000 : Nat) - 1000 < 16000 ∧ (0 : Nat) < 3
    ∧ (VoiceGui.asrKickRetranscribe 16000 1000 ['a', 'b', ' '] 3 true
        = .promote ['a', 'b', ' ']
      ∧ (∀ t2 c2 pl2 f2 n, ∀ p2 : List Char,
          VoiceGui.asrKickRetranscribe t2 c2 p2 pl2 f2 = .request n →
          16000 ≤ n)
      ∧ VoiceGui.finalCommitFragment ['a', 'b', ' '] 0 =
          (if 0 < (VoiceGui.rstripSpaces ['a', 'b', ' ']).length
           then some ((VoiceGui.rstripSpaces ['a', 'b', ' ']).take 8191)
           else none)) :=
  ⟨by decide, by decide,
    c8_short_finalize_amended 16000 1000 3 ['a', 'b', ' ']
      (by decide) (by decide)⟩

/-- C5: a completed non-final pass that fully diverges (`common == 0`,
non-empty previous tail, `stableLen == 0`) commits nothing; with the
guard unarmed the retained tail is kept unchanged and the guard is armed,
and with the guard already armed the new text is accepted as the new
retained tail. -/
theorem c5_divergence_guard (st : VoiceGui.State) (result : List Char)
    (ts : List Token)
    (h0 : 0 < result.length)
    (hc : VoiceGui.computeCommon result st.prev result.length st.prevLen = 0)
    (hp : 0 < st.prevLen) (hs : st.stableLen = 0)
    (hsm : result.length < 16384) :
    (st.common0Unconfirmed = false →
      (VoiceGui.step st result ts).state.prev = st.prev
      ∧ (VoiceGui.step st result ts).state.prevLen = st.prevLen
      ∧ (VoiceGui.step st result ts).state.common0Unconfirmed = true
      ∧ (VoiceGui.step st result ts).fragment = none)
    ∧ (st.common0Unconfirmed = true →
      (VoiceGui.step st result ts).state.prev = result
      ∧ (VoiceGui.step st result ts).state.prevLen = result.length) := by
  have hsel : VoiceGui.selectCommit result result.length 0 st.stableLen
      = st.stableLen := by
    rw [VoiceGui.selectCommit]; rfl
  unfold VoiceGui.step
  dsimp only
  rw [if_pos h0, hc, hsel, if_neg (by omega : ¬ st.stableLen < st.stableLen)]
  constructor
  · intro hg
    rw [if_pos ⟨⟨rfl, hp, hs⟩, hg⟩]
    exact ⟨rfl, rfl, rfl, rfl⟩
  · intro hg
    rw [if_neg (by rw [hg]; simp)]
    exact ⟨by rw [if_pos hsm], rfl⟩

theorem c5_divergence_guard_witness :
    ((VoiceGui.step ⟨['a', 'b', 'c'], 3, 0, false, 0, 0, 0, []⟩
        ['x', 'y', 'z'] []).state.prev = ['a', 'b', 'c']
      ∧ (VoiceGui.step ⟨['a', 'b', 'c'], 3, 0, false, 0, 0, 0, []⟩
          ['x', 'y', 'z'] []).state.prevLen = 3
      ∧ (VoiceGui.step ⟨['a', 'b', 'c'], 3, 0, false, 0, 0, 0, []⟩
          ['x', 'y', 'z'] []).state.common0Unconfirmed = true
      ∧ (VoiceGui.step ⟨['a', 'b', 'c'], 3, 0, false, 0, 0, 0, []⟩
          ['x', 'y', 'z'] []).fragment = none)
    ∧ ((VoiceGui.step ⟨['a', 'b', 'c'], 3, 0, true, 0, 0, 0, []⟩
        ['q', 'r', 's'] []).state.prev = ['q', 'r', 's']
      ∧ (VoiceGui.step ⟨['a', 'b', 'c'], 3, 0, true, 0, 0, 0, []⟩
          ['q', 'r', 's'] []).state.prevLen
          = (['q', 'r', 's'] : List Char).length) :=
  ⟨(c5_divergence_guard ⟨['a', 'b', 'c'], 3, 0, false, 0, 0, 0, []⟩
      ['x', 'y', 'z'] [] (by decide)
      (by simp [VoiceGui.computeCommon, VoiceGui.fuzzyAux, VoiceGui.foldChar,
        cToLower, VoiceGui.sbScan])
      (by decide) rfl (by decide)).1 rfl,
   (c5_divergence_guard ⟨['a', 'b', 'c'], 3, 0, true, 0, 0, 0, []⟩
      ['q', 'r', 's'] [] (by decide)
      (by simp [VoiceGui.computeCommon, VoiceGui.fuzzyAux, VoiceGui.foldChar,
        cToLower, VoiceGui.sbScan])
      (by decide) rfl (by decide)).2 rfl⟩

/-- C6 counterexample: after `"abc"` → `"xyz"` (first full divergence,
guard armed) the second full divergence `"qrs"` is accepted as the new
retained tail, but `g_common0_unconfirmed` remains `true` — the guard is
not disarmed by that pass, contrary to the claim. -/
theorem c6_counterexample :
    (VoiceGui.step ((VoiceGui.step ⟨['a', 'b', 'c'], 3, 0, false, 0, 0, 0, []⟩
        ['x', 'y', 'z'] []).state) ['q', 'r', 's'] []).state.prev
      = ['q', 'r', 's']
    ∧ ¬ ((VoiceGui.step ((VoiceGui.step
          ⟨['a', 'b', 'c'], 3, 0, false, 0, 0, 0, []⟩
          ['x', 'y', 'z'] []).state) ['q', 'r', 's'] []).state.common0Unconfirmed
        = false) := by
  have h1 : (VoiceGui.step ⟨['a', 'b', 'c'], 3, 0, false, 0, 0, 0, []⟩
      ['x', 'y', 'z'] []).state = ⟨['a', 'b', 'c'], 3, 0, true, 0, 0, 0, []⟩ := by
    simp [VoiceGui.step, VoiceGui.computeCommon, VoiceGui.fuzzyAux,
      VoiceGui.foldChar, cToLower, VoiceGui.sbScan, VoiceGui.selectCommit,
      VoiceGui.commitScan]
  rw [h1]
  have h2 : (VoiceGui.step ⟨['a', 'b', 'c'], 3, 0, true, 0, 0, 0, []⟩
      ['q', 'r', 's'] []).state = ⟨['q', 'r', 's'], 3, 0, true, 0, 0, 0, []⟩ := by
    simp [VoiceGui.step, VoiceGui.computeCommon, VoiceGui.fuzzyAux,
      VoiceGui.foldChar, cToLower, VoiceGui.sbScan, VoiceGui.selectCommit,
      VoiceGui.commitScan]
  rw [h2]
  exact ⟨rfl, by simp⟩

/-- C6 amended: the pass that accepts the second consecutive full
divergence leaves the guard armed (`g_common0_unconfirmed` stays `true`);
the guard is cleared only by a later completed pass that aligns with
`common > 0` without committing. -/
theorem c6_guard_stays_armed (st : VoiceGui.State) (result : List Char)
    (ts : List Token)
    (h0 : 0 < result.length)
    (hc : VoiceGui.computeCommon result st.prev result.length st.prevLen = 0)
    (hp : 0 < st.prevLen) (hs : st.stableLen = 0)
    (hsm : result.length < 16384)
    (hg : st.common0Unconfirmed = true) :
    ((VoiceGui.step st result ts).state.prev = result
      ∧ (VoiceGui.step st result ts).state.common0Unconfirmed = true)
    ∧ (∀ (st2 : VoiceGui.State) (r2 : List Char) (ts2 : List Token),
        0 < r2.length →
        0 < VoiceGui.computeCommon r2 st2.prev r2.length st2.prevLen →
        ¬ (st2.stableLen < VoiceGui.selectCommit r2 r2.length
            (VoiceGui.computeCommon r2 st2.prev r2.length st2.prevLen)
            st2.stableLen) →
        (VoiceGui.step st2 r2 ts2).state.common0Unconfirmed = false) := by
  constructor
  · have hsel : VoiceGui.selectCommit result result.length 0 st.stableLen
        = st.stableLen := by
      rw [VoiceGui.selectCommit]; rfl
    unfold VoiceGui.step
    dsimp only
    rw [if_pos h0, hc, hsel,
      if_neg (by omega : ¬ st.stableLen < st.stableLen),
      if_neg (by rw [hg]; simp)]
    exact ⟨by rw [if_pos hsm], by rw [if_neg (by omega : ¬ (0:Nat) < 0), hg]⟩
  · intro st2 r2 ts2 h02 hcp hnc
    unfold VoiceGui.step
    dsimp only
    rw [if_pos h02, if_neg hnc,
      if_neg (by
        rintro ⟨⟨hz, -⟩, -⟩
        omega),
      if_pos hcp]

theorem c6_guard_witness :
    ((VoiceGui.step ⟨['a', 'b', 'c'], 3, 0, true, 0, 0, 0, []⟩
        ['q', 'r', 's'] []).state.prev = ['q', 'r', 's']
      ∧ (VoiceGui.step ⟨['a', 'b', 'c'], 3, 0, true, 0, 0, 0, []⟩
          ['q', 'r', 's'] []).state.common0Unconfirmed = true)
    ∧ (VoiceGui.step ⟨['h', 'i'], 2, 0, true, 0, 0, 0, []⟩
        ['h', 'i', ' ', 'x'] []).state.common0Unconfirmed = false :=
  ⟨(c6_guard_stays_armed ⟨['a', 'b', 'c'], 3, 0, true, 0, 0, 0, []⟩
      ['q', 'r', 's'] [] (by decide)
      (by simp [VoiceGui.computeCommon, VoiceGui.fuzzyAux, VoiceGui.foldChar,
        cToLower, VoiceGui.sbScan])
      (by decide) rfl (by decide) rfl).1,
   (c6_guard_stays_armed ⟨['a', 'b', 'c'], 3, 0, true, 0, 0, 0, []⟩
      ['q', 'r', 's'] [] (by decide)
      (by simp [VoiceGui.computeCommon, VoiceGui.fuzzyAux, VoiceGui.foldChar,
        cToLower, VoiceGui.sbScan])
      (by decide) rfl (by decide) rfl).2
    ⟨['h', 'i'], 2, 0, true, 0, 0, 0, []⟩ ['h', 'i', ' ', 'x'] []
    (by decide)
    (by simp [VoiceGui.computeCommon, VoiceGui.fuzzyAux, VoiceGui.foldChar,
      cToLower, VoiceGui.sbScan, VoiceGui.skipSeps])
    (by simp [VoiceGui.computeCommon, VoiceGui.fuzzyAux, VoiceGui.foldChar,
      cToLower, VoiceGui.sbScan, VoiceGui.skipSeps, VoiceGui.selectCommit,
      VoiceGui.commitScan])⟩

theorem toNat_ofNat_valid (n : Nat) (h : n < 55296) :
    (Char.ofNat n).toNat = n := by
  rw [Char.ofNat, dif_pos (Or.inl h)]
  rfl

theorem foldChar_eq_space_iff (c : Char) :
    VoiceGui.foldChar c = ' ' ↔ (c = ' ' ∨ c = '-') := by
  unfold VoiceGui.foldChar cToLower
  dsimp only
  by_cases h : 65 ≤ c.toNat ∧ c.toNat ≤ 90
  · rw [if_pos h]
    have ht : (Char.ofNat (c.toNat + 32)).toNat = c.toNat + 32 :=
      toNat_ofNat_valid _ (by omega)
    have hd : ('-' : Char).toNat = 45 := rfl
    have hs : (' ' : Char).toNat = 32 := rfl
    have hne1 : ¬ (Char.ofNat (c.toNat + 32)) = '-' := by
      intro he; rw [he, hd] at ht; omega
    rw [if_neg hne1]
    constructor
    · intro he; rw [he, hs] at ht; omega
    · rintro (he | he) <;> rw [he] at h <;> exact absurd h (by decide)
  · rw [if_neg h]
    by_cases hd : c = '-'
    · rw [if_pos hd]; simp [hd]
    · rw [if_neg hd]
      constructor
      · intro he; exact Or.inl he
      · rintro (he | he)
        · exact he
        · exact absurd he hd

theorem skipSeps_le (s : List Char) (len : Nat) :
    ∀ i, i ≤ len → VoiceGui.skipSeps s len i ≤ len := by
  intro i
  induction i using VoiceGui.skipSeps.induct s len with
  | case1 i h ih =>
    intro _
    rw [VoiceGui.skipSeps, dif_pos h]
    exact ih (by omega)
  | case2 i h =>
    intro hle
    rw [VoiceGui.skipSeps, dif_neg h]
    exact hle

theorem skipSeps_end_sep (s : List Char) (len : Nat) :
    ∀ i, i < len → VoiceGui.skipSeps s len i = len →
    (s.getD (len - 1) ' ' = ' ' ∨ s.getD (len - 1) ' ' = '-') := by
  intro i
  induction i using VoiceGui.skipSeps.induct s len with
  | case1 i h ih =>
    intro hlt hEq
    rw [VoiceGui.skipSeps, dif_pos h] at hEq
    by_cases h1 : i + 1 < len
    · exact ih h1 hEq
    · rw [show len - 1 = i by omega]
      exact h.2
  | case2 i h =>
    intro hlt hEq
    rw [VoiceGui.skipSeps, dif_neg h] at hEq
    omega

theorem fuzzyAux_self_aux (X : List Char)
    (hsep : ¬ (X.getD (X.length - 1) ' ' = ' '
      ∨ X.getD (X.length - 1) ' ' = '-')) :
    ∀ n ia c, X.length - ia = n → ia ≤ X.length →
      VoiceGui.fuzzyAux X X X.length X.length ia ia c
        = if ia = X.length then c else X.length := by
  intro n
  induction n using Nat.strong_induction_on with
  | _ n IH =>
    intro ia c hn hia
    by_cases hend : ia = X.length
    · rw [VoiceGui.fuzzyAux, dif_neg (by omega), if_pos hend]
    · have hlt : ia < X.length := by omega
      rw [VoiceGui.fuzzyAux, dif_pos ⟨hlt, hlt⟩, if_neg hend]
      dsimp only
      by_cases hsp : VoiceGui.foldChar (X.getD ia ' ') = ' '
      · rw [if_pos ⟨hsp, hsp⟩]
        have hge := VoiceGui.skipSeps_ge X X.length (ia + 1)
        have hjle := skipSeps_le X X.length (ia + 1) (by omega)
        have hjne : ¬ VoiceGui.skipSeps X X.length (ia + 1) = X.length := by
          intro hEq
          by_cases h1 : ia + 1 < X.length
          · exact hsep (skipSeps_end_sep X X.length (ia + 1) h1 hEq)
          · refine hsep ?_
            rw [show X.length - 1 = ia by omega]
            exact (foldChar_eq_space_iff _).mp hsp
        rw [IH (X.length - VoiceGui.skipSeps X X.length (ia + 1))
          (by omega) (VoiceGui.skipSeps X X.length (ia + 1)) ia rfl
          (by omega)]
        rw [if_neg hjne]
      · rw [if_neg (fun hand => hsp hand.1), if_pos rfl]
        rw [IH (X.length - (ia + 1)) (by omega) (ia + 1) (ia + 1) rfl
          (by omega)]
        by_cases he : ia + 1 = X.length
        · rw [if_pos he]; exact he
        · rw [if_neg he]

/-- C7 counterexample: aligning the string `"a "` (which ends in a space)
against itself yields 1, not its length 2 — the separator branch records
`common = ia` at the trailing space run and never reaches the end. -/
theorem c7_counterexample :
    VoiceGui.computeCommon ['a', ' '] ['a', ' '] 2 2 = 1
    ∧ (['a', ' '] : List Char).length = 2
    ∧ (1 : Nat) ≠ 2 := by
  refine ⟨?_, by decide, by decide⟩
  simp [VoiceGui.computeCommon, VoiceGui.fuzzyAux, VoiceGui.foldChar,
    cToLower, VoiceGui.skipSeps, VoiceGui.sbScan]

/-- C7 amended: alignment is idempotent on every string that does not end
in a space or hyphen: `align(X, X) = length(X)`; a trailing run of
spaces/hyphens is not counted, so for such `X` the result is the index of
the start of that trailing run instead. -/
theorem c7_align_self_amended (X : List Char)
    (h : ∀ c, X.getLast? = some c → ¬ (c = ' ' ∨ c = '-')) :
    VoiceGui.computeCommon X X X.length X.length = X.length := by
  by_cases hX : X = []
  · subst hX
    rw [VoiceGui.computeCommon]
    dsimp only
    rw [VoiceGui.fuzzyAux, dif_neg (by simp)]
    simp
  · have hlast : X.getLast? = some (X.getD (X.length - 1) ' ') := by
      rw [List.getLast?_eq_getElem?, List.getD_eq_getElem?_getD,
        List.getElem?_eq_getElem (by
          have := List.length_pos.mpr hX
          omega)]
      simp
    have hsep := h _ hlast
    have hmain := fuzzyAux_self_aux X hsep X.length 0 0 (by omega) (by omega)
    have hcommon : VoiceGui.fuzzyAux X X X.length X.length 0 0 0
        = X.length := by
      rw [hmain]
      by_cases h0 : 0 = X.length
      · rw [if_pos h0]; omega
      · rw [if_neg h0]
    rw [VoiceGui.computeCommon]
    dsimp only
    rw [hcommon, if_neg (by omega)]

theorem c7_align_self_witness :
    (∀ c, (['a', 'b', 'c'] : List Char).getLast? = some c
      → ¬ (c = ' ' ∨ c = '-'))
    ∧ VoiceGui.computeCommon ['a', 'b', 'c'] ['a', 'b', 'c']
        (['a', 'b', 'c'] : List Char).length
        (['a', 'b', 'c'] : List Char).length
      = (['a', 'b', 'c'] : List Char).length :=
  ⟨by
    intro c hc
    simp at hc
    subst hc
    decide,
   c7_align_self_amended ['a', 'b', 'c'] (by
    intro c hc
    simp at hc
    subst hc
    decide)⟩

theorem exists_Ioc_succ_iff {Q : Nat → Prop} (lo i : Nat)
    (hni : ¬ (lo < i + 1 ∧ Q (i + 1))) :
    (∃ j, lo < j ∧ j ≤ i + 1 ∧ Q j) ↔ (∃ j, lo < j ∧ j ≤ i ∧ Q j) := by
  constructor
  · rintro ⟨j, h1, h2, h3⟩
    by_cases hj : j = i + 1
    · subst hj
      exact absurd ⟨h1, h3⟩ hni
    · exact ⟨j, h1, by omega, h3⟩
  · rintro ⟨j, h1, h2, h3⟩
    exact ⟨j, h1, by omega, h3⟩

theorem boundaryAt_ge (result : List Char) (rLen i : Nat) :
    i + 1 ≤ VoiceGui.boundaryAt result rLen i := by
  unfold VoiceGui.boundaryAt
  dsimp only
  split <;> omega

theorem commitScan_eq (result : List Char) (rLen common stableLen : Nat) :
    ∀ (i : Nat) (bc : Option Nat),
    VoiceGui.commitScan result rLen common stableLen i bc =
      if ∃ j, stableLen < j ∧ j ≤ i ∧ strongQual result common j then
        VoiceGui.boundaryAt result rLen
          (Nat.findGreatest
            (fun j => stableLen < j ∧ strongQual result common j) i)
      else
        match bc with
        | some b => if stableLen < b then b else stableLen
        | none =>
          if ∃ j, stableLen < j ∧ j ≤ i
              ∧ weakQual result rLen common stableLen j then
            VoiceGui.boundaryAt result rLen
              (Nat.findGreatest
                (fun j => stableLen < j
                  ∧ weakQual result rLen common stableLen j) i)
          else stableLen := by
  intro i
  induction i with
  | zero =>
    intro bc
    rw [if_neg (by rintro ⟨j, h1, h2, -⟩; omega)]
    cases bc with
    | some b => rfl
    | none =>
      rw [if_neg (by rintro ⟨j, h1, h2, -⟩; omega)]
      rfl
  | succ i IH =>
    intro bc
    by_cases hsl : stableLen < i + 1
    · rw [VoiceGui.commitScan.eq_def]
      dsimp only
      rw [if_pos hsl]
      by_cases hsw : (result.getD (i + 1) ' ' = '.'
            ∨ result.getD (i + 1) ' ' = '!'
            ∨ result.getD (i + 1) ' ' = '?'
            ∨ result.getD (i + 1) ' ' = ':')
          ∨ (result.getD (i + 1) ' ' = ',' ∨ result.getD (i + 1) ' ' = ';')
      · rw [if_pos hsw]
        by_cases hskip : i + 2 < common ∧ ¬ result.getD (i + 2) ' ' = ' '
        · rw [if_pos hskip, IH bc]
          have hnq : ¬ (stableLen < i + 1
              ∧ strongQual result common (i + 1)) := by
            rintro ⟨-, -, hq2 | hq2⟩
            · omega
            · exact hskip.2 hq2
          have hnw : ¬ (stableLen < i + 1
              ∧ weakQual result rLen common stableLen (i + 1)) := by
            rintro ⟨-, -, hq2 | hq2, -, -⟩
            · omega
            · exact hskip.2 hq2
          cases bc with
          | some b =>
            simp only [exists_Ioc_succ_iff _ _ hnq, Nat.findGreatest_succ]
            rw [if_neg hnq]
          | none =>
            simp only [exists_Ioc_succ_iff _ _ hnq,
              exists_Ioc_succ_iff _ _ hnw, Nat.findGreatest_succ]
            rw [if_neg hnq, if_neg hnw]
        · rw [if_neg hskip]
          have hnoskip : common ≤ i + 1 + 1
              ∨ result.getD (i + 1 + 1) ' ' = ' ' := by
            by_cases hcm : i + 2 < common
            · right
              by_contra hB
              exact hskip ⟨hcm, hB⟩
            · left; omega
          by_cases hs : result.getD (i + 1) ' ' = '.'
              ∨ result.getD (i + 1) ' ' = '!'
              ∨ result.getD (i + 1) ' ' = '?'
              ∨ result.getD (i + 1) ' ' = ':'
          · rw [if_pos hs]
            have hq : strongQual result common (i + 1) := ⟨hs, hnoskip⟩
            rw [if_pos ⟨i + 1, hsl, Nat.le_refl _, hq⟩,
              Nat.findGreatest_eq ⟨hsl, hq⟩]
          · rw [if_neg hs]
            have hw : weakChar (result.getD (i + 1) ' ') :=
              hsw.resolve_left hs
            have hnq : ¬ (stableLen < i + 1
                ∧ strongQual result common (i + 1)) := by
              rintro ⟨-, hq1, -⟩
              exact hs hq1
            by_cases hcond : bc = none
                ∧ 30 ≤ VoiceGui.boundaryAt result rLen (i + 1) - stableLen
                ∧ 15 ≤ common - VoiceGui.boundaryAt result rLen (i + 1)
            · rw [if_pos hcond,
                IH (some (VoiceGui.boundaryAt result rLen (i + 1)))]
              obtain ⟨hbc, hth1, hth2⟩ := hcond
              subst hbc
              have hq : weakQual result rLen common stableLen (i + 1) :=
                ⟨hw, hnoskip, hth1, hth2⟩
              simp only [exists_Ioc_succ_iff _ _ hnq, Nat.findGreatest_succ]
              rw [if_neg hnq]
              by_cases hex : ∃ j, stableLen < j ∧ j ≤ i
                  ∧ strongQual result common j
              · rw [if_pos hex, if_pos hex]
              · rw [if_neg hex, if_neg hex]
                rw [if_pos (by
                  have := boundaryAt_ge result rLen (i + 1)
                  omega)]
                rw [if_pos ⟨i + 1, hsl, Nat.le_refl _, hq⟩,
                  if_pos (⟨hsl, hq⟩ : stableLen < i + 1
                    ∧ weakQual result rLen common stableLen (i + 1))]
            · rw [if_neg hcond, IH bc]
              cases bc with
              | some b =>
                simp only [exists_Ioc_succ_iff _ _ hnq,
                  Nat.findGreatest_succ]
                rw [if_neg hnq]
              | none =>
                have hnw : ¬ (stableLen < i + 1
                    ∧ weakQual result rLen common stableLen (i + 1)) := by
                  rintro ⟨-, -, -, h1, h2⟩
                  exact hcond ⟨rfl, h1, h2⟩
                simp only [exists_Ioc_succ_iff _ _ hnq,
                  exists_Ioc_succ_iff _ _ hnw, Nat.findGreatest_succ]
                rw [if_neg hnq, if_neg hnw]
      · rw [if_neg hsw, IH bc]
        have hnq : ¬ (stableLen < i + 1
            ∧ strongQual result common (i + 1)) := by
          rintro ⟨-, hq1, -⟩
          exact hsw (Or.inl hq1)
        have hnw : ¬ (stableLen < i + 1
            ∧ weakQual result rLen common stableLen (i + 1)) := by
          rintro ⟨-, hq1, -⟩
          exact hsw (Or.inr hq1)
        cases bc with
        | some b =>
          simp only [exists_Ioc_succ_iff _ _ hnq, Nat.findGreatest_succ]
          rw [if_neg hnq]
        | none =>
          simp only [exists_Ioc_succ_iff _ _ hnq,
            exists_Ioc_succ_iff _ _ hnw, Nat.findGreatest_succ]
          rw [if_neg hnq, if_neg hnw]
    · rw [VoiceGui.commitScan.eq_def]
      dsimp only
      rw [if_neg hsl]
      rw [if_neg (by rintro ⟨j, h1, h2, -⟩; omega)]
      cases bc with
      | some b => rfl
      | none =>
        rw [if_neg (by rintro ⟨j, h1, h2, -⟩; omega)]


/-- C2 counterexample: in `current = "ab.Xy"` with `commonLen = 3` and
`floor = 0`, no boundary in the claim's sense exists — the `'.'` at
index 2 is followed by `'X'`, neither a space nor the end of the text,
and there is no weak character — yet the scan accepts the `'.'` because
it sits at the end of the aligned region (`i + 1 = commonLen`), and the
code commits with cut point 3 instead of the claimed `floor = 0`. -/
theorem c2_counterexample :
    (∀ i, i < 3 → 0 < i →
      ¬ claimStrongAt ['a', 'b', '.', 'X', 'y'] 5 i
      ∧ ¬ weakChar ((['a', 'b', '.', 'X', 'y'] : List Char).getD i ' '))
    ∧ VoiceGui.selectCommit ['a', 'b', '.', 'X', 'y'] 5 3 0 = 3
    ∧ ¬ (3 = 0) := by decide

/-- C2 amended: the Commit Selector scans positions `floor < i ≤
commonLen - 1` backward; the rightmost strong boundary (`.` `!` `?` `:`
immediately followed by a space, or sitting at the end of the aligned
region, i.e. `commonLen ≤ i + 1`) determines the cut point and stops the
scan; with no strong boundary, the rightmost weak boundary (`,` `;`,
equally qualified) is used only when its cut point leaves at least 30
confirmed characters before it and at least 15 aligned characters after
it; with neither, the cut point is `floor` and nothing is committed. -/
theorem c2_select_commit_amended (result : List Char)
    (rLen common stableLen : Nat) :
    VoiceGui.selectCommit result rLen common stableLen =
      if ∃ j, stableLen < j ∧ j ≤ common - 1
          ∧ strongQual result common j then
        VoiceGui.boundaryAt result rLen
          (Nat.findGreatest
            (fun j => stableLen < j ∧ strongQual result common j)
            (common - 1))
      else if ∃ j, stableLen < j ∧ j ≤ common - 1
          ∧ weakQual result rLen common stableLen j then
        VoiceGui.boundaryAt result rLen
          (Nat.findGreatest
            (fun j => stableLen < j
              ∧ weakQual result rLen common stableLen j)
            (common - 1))
      else stableLen := by
  rw [VoiceGui.selectCommit, commitScan_eq]

/-- The claim's "in particular" instances, checked against the embedded
scan: a comma at index 5 with only 5 characters of confirmed content
before it commits nothing, while a comma at index 35 followed by a space,
with 35 confirmed characters before it and 16 aligned characters after
its cut point, commits at cut point 37. -/
theorem c2_comma_examples :
    VoiceGui.selectCommit ['a', 'b', 'c', 'd', 'e', ',', ' ', 'f', 'g', 'h', 'i', 'j', 'k', 'l', 'm', 'n', 'o', 'p', 'q', 'r', 's', 't', 'u', 'v', 'w', 'x', 'y', 'z'] 28 28 0 = 0
    ∧ VoiceGui.selectCommit ['a', 'b', 'c', 'd', 'e', 'f', 'g', 'h', 'i', 'j', ' ', 'a', 'b', 'c', 'd', 'e', 'f', 'g', 'h', 'i', 'j', ' ', 'a', 'b', 'c', 'd', 'e', 'f', 'g', 'h', 'i', 'j', ' ', 'a', 'b', ',', ' ', 'c', 'd', 'e', 'f', 'g', 'h', 'i', 'j', ' ', 'a', 'b', 'c', 'd', 'e', 'f', 'g'] 53 53 0 = 37 := by decide

theorem sim_foldChar_eq (c : Char) :
    VoiceSim.foldChar c = VoiceGui.foldChar c := rfl

theorem sim_boundaryAt_eq (result : List Char) (rLen i : Nat) :
    VoiceSim.boundaryAt result rLen i = VoiceGui.boundaryAt result rLen i :=
  rfl

theorem sim_rstripSpaces_eq (l : List Char) :
    VoiceSim.rstripSpaces l = VoiceGui.rstripSpaces l := rfl

theorem sim_skipSeps_eq (s : List Char) (len : Nat) :
    ∀ i, VoiceSim.skipSeps s len i = VoiceGui.skipSeps s len i := by
  intro i
  induction i using VoiceGui.skipSeps.induct s len with
  | case1 i h ih =>
    rw [VoiceGui.skipSeps, dif_pos h, VoiceSim.skipSeps, dif_pos h]
    exact ih
  | case2 i h =>
    rw [VoiceGui.skipSeps, dif_neg h, VoiceSim.skipSeps, dif_neg h]

theorem sim_fuzzyAux_eq_aux (result prev : List Char) (rLen pLen : Nat) :
    ∀ n ia ib c, rLen - ia = n →
      VoiceSim.fuzzyAux result prev rLen pLen ia ib c
        = VoiceGui.fuzzyAux result prev rLen pLen ia ib c := by
  intro n
  induction n using Nat.strong_induction_on with
  | _ n IH =>
    intro ia ib c hn
    by_cases h : ia < rLen ∧ ib < pLen
    · rw [VoiceGui.fuzzyAux, dif_pos h, VoiceSim.fuzzyAux, dif_pos h]
      dsimp only
      simp only [sim_foldChar_eq, sim_skipSeps_eq]
      by_cases hsp : VoiceGui.foldChar (result.getD ia ' ') = ' '
          ∧ VoiceGui.foldChar (prev.getD ib ' ') = ' '
      · rw [if_pos hsp, if_pos hsp]
        exact IH (rLen - VoiceGui.skipSeps result rLen (ia + 1)) (by
          have := VoiceGui.skipSeps_ge result rLen (ia + 1); omega) _ _ _ rfl
      · rw [if_neg hsp, if_neg hsp]
        by_cases heq : VoiceGui.foldChar (result.getD ia ' ')
            = VoiceGui.foldChar (prev.getD ib ' ')
        · rw [if_pos heq, if_pos heq]
          exact IH (rLen - (ia + 1)) (by omega) _ _ _ rfl
        · rw [if_neg heq, if_neg heq]
    · rw [VoiceGui.fuzzyAux, dif_neg h, VoiceSim.fuzzyAux, dif_neg h]

theorem sim_fuzzyAux_eq (result prev : List Char) (rLen pLen ia ib c : Nat) :
    VoiceSim.fuzzyAux result prev rLen pLen ia ib c
      = VoiceGui.fuzzyAux result prev rLen pLen ia ib c :=
  sim_fuzzyAux_eq_aux result prev rLen pLen (rLen - ia) ia ib c rfl

theorem sim_sbScan_eq_aux (s : List Char) (len : Nat) :
    ∀ n i, len - i = n →
      VoiceSim.sbScan s len i = VoiceGui.sbScan s len i := by
  intro n
  induction n using Nat.strong_induction_on with
  | _ n IH =>
    intro i hn
    by_cases h : i + 1 < len
    · rw [VoiceGui.sbScan, dif_pos h, VoiceSim.sbScan, dif_pos h]
      by_cases hc : (s.getD i ' ' = '.' ∨ s.getD i ' ' = '!'
          ∨ s.getD i ' ' = '?' ∨ s.getD i ' ' = ':')
          ∧ s.getD (i + 1) ' ' = ' '
      · rw [if_pos hc, if_pos hc]
      · rw [if_neg hc, if_neg hc]
        exact IH (len - (i + 1)) (by omega) _ rfl
    · rw [VoiceGui.sbScan, dif_neg h, VoiceSim.sbScan, dif_neg h]

theorem sim_sbScan_eq (s : List Char) (len i : Nat) :
    VoiceSim.sbScan s len i = VoiceGui.sbScan s len i :=
  sim_sbScan_eq_aux s len (len - i) i rfl

theorem sim_computeCommon_eq (result prev : List Char) (rLen pLen : Nat) :
    VoiceSim.computeCommon result prev rLen pLen
      = VoiceGui.computeCommon result prev rLen pLen := by
  unfold VoiceSim.computeCommon VoiceGui.computeCommon
  simp only [sim_fuzzyAux_eq, sim_sbScan_eq]

theorem sim_commitScan_eq (result : List Char) (rLen common stableLen : Nat) :
    ∀ (i : Nat) (bc : Option Nat),
      VoiceSim.commitScan result rLen common stableLen i bc
        = VoiceGui.commitScan result rLen common stableLen i bc := by
  intro i
  induction i with
  | zero => intro bc; cases bc <;> rfl
  | succ i IH =>
    intro bc
    rw [VoiceGui.commitScan.eq_def, VoiceSim.commitScan.eq_def]
    dsimp only
    by_cases hsl : stableLen < i + 1
    · rw [if_pos hsl, if_pos hsl]
      by_cases hsw : (result.getD (i + 1) ' ' = '.'
            ∨ result.getD (i + 1) ' ' = '!'
            ∨ result.getD (i + 1) ' ' = '?'
            ∨ result.getD (i + 1) ' ' = ':')
          ∨ (result.getD (i + 1) ' ' = ',' ∨ result.getD (i + 1) ' ' = ';')
      · rw [if_pos hsw, if_pos hsw]
        by_cases hskip : i + 2 < common
            ∧ ¬ result.getD (i + 2) ' ' = ' '
        · rw [if_pos hskip, if_pos hskip]
          exact IH bc
        · rw [if_neg hskip, if_neg hskip]
          by_cases hs : result.getD (i + 1) ' ' = '.'
              ∨ result.getD (i + 1) ' ' = '!'
              ∨ result.getD (i + 1) ' ' = '?'
              ∨ result.getD (i + 1) ' ' = ':'
          · rw [if_pos hs, if_pos hs]
            exact sim_boundaryAt_eq result rLen (i + 1)
          · rw [if_neg hs, if_neg hs]
            simp only [sim_boundaryAt_eq]
            by_cases hcond : bc = none
                ∧ 30 ≤ VoiceGui.boundaryAt result rLen (i + 1) - stableLen
                ∧ 15 ≤ common - VoiceGui.boundaryAt result rLen (i + 1)
            · rw [if_pos hcond]
              exact IH _
            · rw [if_neg hcond]
              exact IH bc
      · rw [if_neg hsw, if_neg hsw]
        exact IH bc
    · rw [if_neg hsl, if_neg hsl]

theorem sim_selectCommit_eq (result : List Char)
    (rLen common stableLen : Nat) :
    VoiceSim.selectCommit result rLen common stableLen
      = VoiceGui.selectCommit result rLen common stableLen := by
  unfold VoiceSim.selectCommit VoiceGui.selectCommit
  exact sim_commitScan_eq result rLen common stableLen (common - 1) none

theorem sim_lastMsLoop_eq :
    ∀ (ts : List Token) (cut m : Nat),
      VoiceSim.lastMsLoop ts cut m = VoiceGui.lastMsLoop ts cut m := by
  intro ts
  induction ts with
  | nil => intro cut m; rfl
  | cons t rest ih =>
    intro cut m
    simp only [VoiceSim.lastMsLoop, VoiceGui.lastMsLoop]
    by_cases h : t.byteOffset < cut
    · rw [if_pos h, if_pos h]
      exact ih cut t.audioMs
    · rw [if_neg h, if_neg h]

theorem sim_advanceAmount_eq (ts : List Token)
    (newStable rLen windowSamples : Nat) :
    VoiceSim.advanceAmount ts newStable rLen windowSamples
      = VoiceGui.advanceAmount ts newStable rLen windowSamples := by
  unfold VoiceSim.advanceAmount VoiceGui.advanceAmount
  rw [sim_lastMsLoop_eq]

/-- C9: for identical session state and identical pass inputs (text and
token timestamps), the interactive client's reconciliation and the
offline harness's reconciliation produce the same common-prefix length,
the same commit cut point, the same committed fragment, the same
retained tail (text and length), the same committed-samples value, and
the same guard state — every modelled output except the prompt-bias
text, which the client clips to 4095 bytes and the harness to 8191. -/
theorem c9_gui_sim_equivalence (prev : List Char)
    (prevLen stableLen : Nat) (guard : Bool)
    (committedSamples windowSamples lastTranscribeSamples : Nat)
    (prompt result : List Char) (ts : List Token) :
    (VoiceGui.step ⟨prev, prevLen, stableLen, guard, committedSamples,
        windowSamples, lastTranscribeSamples, prompt⟩ result ts).common
      = (VoiceSim.step ⟨prev, prevLen, stableLen, guard, committedSamples,
          windowSamples, lastTranscribeSamples, prompt⟩ result ts).common
    ∧ (VoiceGui.step ⟨prev, prevLen, stableLen, guard, committedSamples,
        windowSamples, lastTranscribeSamples, prompt⟩ result ts).newStable
      = (VoiceSim.step ⟨prev, prevLen, stableLen, guard, committedSamples,
          windowSamples, lastTranscribeSamples, prompt⟩ result ts).newStable
    ∧ (VoiceGui.step ⟨prev, prevLen, stableLen, guard, committedSamples,
        windowSamples, lastTranscribeSamples, prompt⟩ result ts).fragment
      = (VoiceSim.step ⟨prev, prevLen, stableLen, guard, committedSamples,
          windowSamples, lastTranscribeSamples, prompt⟩ result ts).fragment
    ∧ (VoiceGui.step ⟨prev, prevLen, stableLen, guard, committedSamples,
        windowSamples, lastTranscribeSamples, prompt⟩ result ts).didCommit
      = (VoiceSim.step ⟨prev, prevLen, stableLen, guard, committedSamples,
          windowSamples, lastTranscribeSamples, prompt⟩ result ts).didCommit
    ∧ (VoiceGui.step ⟨prev, prevLen, stableLen, guard, committedSamples,
        windowSamples, lastTranscribeSamples, prompt⟩ result ts).state.prev
      = (VoiceSim.step ⟨prev, prevLen, stableLen, guard, committedSamples,
          windowSamples, lastTranscribeSamples, prompt⟩ result ts).state.prev
    ∧ (VoiceGui.step ⟨prev, prevLen, stableLen, guard, committedSamples,
        windowSamples, lastTranscribeSamples, prompt⟩ result ts).state.prevLen
      = (VoiceSim.step ⟨prev, prevLen, stableLen, guard, committedSamples,
          windowSamples, lastTranscribeSamples,
          prompt⟩ result ts).state.prevLen
    ∧ (VoiceGui.step ⟨prev, prevLen, stableLen, guard, committedSamples,
        windowSamples, lastTranscribeSamples,
        prompt⟩ result ts).state.stableLen
      = (VoiceSim.step ⟨prev, prevLen, stableLen, guard, committedSamples,
          windowSamples, lastTranscribeSamples,
          prompt⟩ result ts).state.stableLen
    ∧ (VoiceGui.step ⟨prev, prevLen, stableLen, guard, committedSamples,
        windowSamples, lastTranscribeSamples,
        prompt⟩ result ts).state.common0Unconfirmed
      = (VoiceSim.step ⟨prev, prevLen, stableLen, guard, committedSamples,
          windowSamples, lastTranscribeSamples,
          prompt⟩ result ts).state.common0Unconfirmed
    ∧ (VoiceGui.step ⟨prev, prevLen, stableLen, guard, committedSamples,
        windowSamples, lastTranscribeSamples,
        prompt⟩ result ts).state.committedSamples
      = (VoiceSim.step ⟨prev, prevLen, stableLen, guard, committedSamples,
          windowSamples, lastTranscribeSamples,
          prompt⟩ result ts).state.committedSamples := by
  unfold VoiceGui.step VoiceSim.step
  dsimp only
  simp only [sim_computeCommon_eq, sim_selectCommit_eq,
    sim_advanceAmount_eq, sim_rstripSpaces_eq]
  by_cases h0 : 0 < result.length
  · rw [if_pos h0, if_pos h0]
    by_cases hcm : stableLen < VoiceGui.selectCommit result result.length
        (VoiceGui.computeCommon result prev result.length prevLen) stableLen
    · rw [if_pos hcm, if_pos hcm]
      exact ⟨rfl, rfl, rfl, rfl, rfl, rfl, rfl, rfl, rfl⟩
    · rw [if_neg hcm, if_neg hcm]
      by_cases hfd : (VoiceGui.computeCommon result prev result.length
            prevLen = 0 ∧ 0 < prevLen ∧ stableLen = 0)
          ∧ guard = false
      · rw [if_pos hfd, if_pos hfd]
        exact ⟨rfl, rfl, rfl, rfl, rfl, rfl, rfl, rfl, rfl⟩
      · rw [if_neg hfd, if_neg hfd]
        exact ⟨rfl, rfl, rfl, rfl, rfl, rfl, rfl, rfl, rfl⟩
  · rw [if_neg h0, if_neg h0]
    exact ⟨rfl, rfl, rfl, rfl, rfl, rfl, rfl, rfl, rfl⟩
